import Mathlib

/-!
Verification of the `smithy` mechanical-design library.

The Rust sources operate on IEEE-754 `f64`. The main embedding idealises
`f64` arithmetic as exact real (or rational, where the code uses only
field operations) arithmetic; decimal literals such as `0.0015` are taken
at their exact decimal value. A separate small model `F64` with signed
infinities and NaN captures the non-finite behaviour of `f64` division,
used for the division-by-zero analysis of `calc_uts_extern_thread`.
-/

namespace Smithy

/-- Real cube root, the model of `f64::cbrt` (which is defined on
negative arguments, with `cbrt (-x) = - cbrt x`). -/
noncomputable def cbrt (x : ℝ) : ℝ :=
  if x < 0 then -((-x) ^ ((1 : ℝ) / 3)) else x ^ ((1 : ℝ) / 3)

theorem cbrt_nonneg {x : ℝ} (hx : 0 ≤ x) : 0 ≤ cbrt x := by
  unfold cbrt
  rw [if_neg (not_lt.2 hx)]
  exact Real.rpow_nonneg hx _

/-! ## `threading.rs` -/

/-- Thread classes 1A, 2A, 3A for external threads (`ThreadClass` in
`threading.rs`). -/
inductive ThreadClass
  | A1
  | A2
  | A3
deriving DecidableEq

/-- Embedding of `calc_uts_allowance` from `threading.rs`: the UTS
external-thread allowance.  The `A3` arm models the Rust early
`return 0.0`. -/
noncomputable def calc_uts_allowance (d p : ℝ) (cls : ThreadClass)
    (le : Option ℝ) : ℝ :=
  let le := le.getD (5 * p)
  let k1 : ℝ := 0.0015
  let k2 : ℝ := 0.015
  match cls with
  | .A3 => 0
  | .A1 | .A2 => 0.3 * (k1 * cbrt d + k1 * Real.sqrt le + k2 * cbrt (p ^ 2))

/-- Embedding of `calc_uts_base_tolerance` from `threading.rs`. -/
noncomputable def calc_uts_base_tolerance (d p le : ℝ) : ℝ :=
  let k1 : ℝ := 0.0015
  let k2 : ℝ := 0.015
  k1 * cbrt d + k1 * Real.sqrt le + k2 * cbrt (p ^ 2)

/-- Embedding of `calc_uts_extern_tolerances` from `threading.rs`:
returns `(t, td, td2)`. -/
noncomputable def calc_uts_extern_tolerances (d p : ℝ) (cls : ThreadClass)
    (le : ℝ) : ℝ × ℝ × ℝ :=
  let t := calc_uts_base_tolerance d p le
  let td := match cls with
    | .A1 => 0.3 * t
    | .A2 | .A3 => 0.06 * cbrt (p ^ 2)
  let td2 := match cls with
    | .A1 => 1.5 * t
    | .A2 => t
    | .A3 => 0.75 * t
  (t, td, td2)

/-- Result record of `calc_uts_extern_thread` (`UnifiedThreadCalc` in
`threading.rs`).  Parametrised over the scalar type so the same record
serves the exact-real embedding and the non-finite `F64` model. -/
structure UnifiedThreadCalc (α : Type) where
  p : α
  d_min : α
  d_max : α
  d1 : α
  d2 : α
  d2_min : α
  d2_max : α
  h : α
  es : α
  t : α
  td : α
  td2 : α
  le : α
  d_unr_max : α
  d_un_max : α
  h_as : α

/-- Embedding of `calc_uts_extern_thread` from `threading.rs`.  `tpi`
and the optional engagement-length multiple are `u32` in the source,
modelled as `ℕ`. -/
noncomputable def calc_uts_extern_thread (d : ℝ) (tpi : ℕ)
    (cls : ThreadClass) (le : Option ℕ) : UnifiedThreadCalc ℝ :=
  let p : ℝ := 1 / (tpi : ℝ)
  let le : ℝ := ((le.getD 9 : ℕ) : ℝ) * p
  let es := calc_uts_allowance d p cls (some le)
  let d_max := d - es
  let tt := calc_uts_extern_tolerances d p cls le
  let t := tt.1
  let td := tt.2.1
  let td2 := tt.2.2
  let d_min := d_max - td
  let h : ℝ := 0.866025404 * p
  let d2 := d - 2 * ((3 / 8) * h)
  let d2_max := d2 - es
  let d2_min := d2_max - td2
  let d_bsc_min := d - 2 * ((5 / 8) * h)
  let d1 := match cls with
    | .A1 | .A2 => d_bsc_min - es
    | .A3 => d_bsc_min
  { p := p
    le := le
    es := es
    d_min := d_min
    d_max := d_max
    t := t
    td := td
    td2 := td2
    d2 := d2
    d2_min := d2_min
    d2_max := d2_max
    h := h
    d1 := d1
    d_unr_max := 1.19078493 * p
    d_un_max := 1.08253175 * p
    h_as := 0.64951905 * p }

/-- C1: `calc_uts_allowance` matches the reference definition: class A3
yields exactly 0 for all inputs; classes A1 and A2 yield
`0.3 * (0.0015 * cbrt D + 0.0015 * sqrt LE + 0.015 * cbrt (P^2))`; and an
omitted engagement length defaults to `5 * P`. -/
theorem calc_uts_allowance_spec :
    (∀ d p le, calc_uts_allowance d p .A3 le = 0) ∧
    (∀ d p le, calc_uts_allowance d p .A1 (some le) =
      0.3 * (0.0015 * cbrt d + 0.0015 * Real.sqrt le + 0.015 * cbrt (p ^ 2))) ∧
    (∀ d p le, calc_uts_allowance d p .A2 (some le) =
      0.3 * (0.0015 * cbrt d + 0.0015 * Real.sqrt le + 0.015 * cbrt (p ^ 2))) ∧
    (∀ d p cls, calc_uts_allowance d p cls none =
      calc_uts_allowance d p cls (some (5 * p))) := by
  refine ⟨fun d p le => rfl, fun d p le => rfl, fun d p le => rfl,
    fun d p cls => ?_⟩
  cases cls <;> rfl

/-- C2: the tolerance derivation: `T = 0.0015 * cbrt D + 0.0015 * sqrt LE
+ 0.015 * cbrt (P^2)` for every class; `Td` is `0.3 * T` for A1 and
`0.06 * cbrt (P^2)` (ignoring `T`) for A2 and A3; `Td2` is `1.5 * T` for
A1, `T` for A2, and `0.75 * T` for A3. -/
theorem calc_uts_extern_tolerances_spec :
    ∀ d p le,
      calc_uts_base_tolerance d p le =
        0.0015 * cbrt d + 0.0015 * Real.sqrt le + 0.015 * cbrt (p ^ 2) ∧
      calc_uts_extern_tolerances d p .A1 le =
        (calc_uts_base_tolerance d p le,
         0.3 * calc_uts_base_tolerance d p le,
         1.5 * calc_uts_base_tolerance d p le) ∧
      calc_uts_extern_tolerances d p .A2 le =
        (calc_uts_base_tolerance d p le,
         0.06 * cbrt (p ^ 2),
         calc_uts_base_tolerance d p le) ∧
      calc_uts_extern_tolerances d p .A3 le =
        (calc_uts_base_tolerance d p le,
         0.06 * cbrt (p ^ 2),
         0.75 * calc_uts_base_tolerance d p le) := by
  exact fun d p le => ⟨rfl, rfl, rfl, rfl⟩

/-- C3: for `tpi ≥ 1`, `calc_uts_extern_thread` sets `p = 1 / tpi`,
defaults the engagement length to `9 * p`, and derives
`h = 0.866025404 * p`, `d_max = d - es`, `d_min = d_max - td`,
`d2 = d - 2 * (3/8 * h)`, `d2_max = d2 - es`, `d2_min = d2_max - td2`,
and `d1 = (d - 2 * (5/8 * h)) - es` for A1/A2 but
`d1 = d - 2 * (5/8 * h)` for A3. -/
theorem calc_uts_extern_thread_spec (d : ℝ) (tpi : ℕ) (cls : ThreadClass)
    (leo : Option ℕ) (_htpi : 1 ≤ tpi) :
    (calc_uts_extern_thread d tpi cls leo).p = 1 / (tpi : ℝ) ∧
    (leo = none → (calc_uts_extern_thread d tpi cls leo).le =
      9 * (calc_uts_extern_thread d tpi cls leo).p) ∧
    (calc_uts_extern_thread d tpi cls leo).es =
      calc_uts_allowance d (1 / (tpi : ℝ)) cls
        (some (calc_uts_extern_thread d tpi cls leo).le) ∧
    (calc_uts_extern_thread d tpi cls leo).h =
      0.866025404 * (calc_uts_extern_thread d tpi cls leo).p ∧
    (calc_uts_extern_thread d tpi cls leo).d_max =
      d - (calc_uts_extern_thread d tpi cls leo).es ∧
    (calc_uts_extern_thread d tpi cls leo).d_min =
      (calc_uts_extern_thread d tpi cls leo).d_max -
        (calc_uts_extern_thread d tpi cls leo).td ∧
    (calc_uts_extern_thread d tpi cls leo).d2 =
      d - 2 * ((3 / 8) * (calc_uts_extern_thread d tpi cls leo).h) ∧
    (calc_uts_extern_thread d tpi cls leo).d2_max =
      (calc_uts_extern_thread d tpi cls leo).d2 -
        (calc_uts_extern_thread d tpi cls leo).es ∧
    (calc_uts_extern_thread d tpi cls leo).d2_min =
      (calc_uts_extern_thread d tpi cls leo).d2_max -
        (calc_uts_extern_thread d tpi cls leo).td2 ∧
    (cls = .A1 ∨ cls = .A2 → (calc_uts_extern_thread d tpi cls leo).d1 =
      (d - 2 * ((5 / 8) * (calc_uts_extern_thread d tpi cls leo).h)) -
        (calc_uts_extern_thread d tpi cls leo).es) ∧
    (cls = .A3 → (calc_uts_extern_thread d tpi cls leo).d1 =
      d - 2 * ((5 / 8) * (calc_uts_extern_thread d tpi cls leo).h)) := by
  refine ⟨rfl, ?_, rfl, rfl, rfl, rfl, rfl, rfl, rfl, ?_, ?_⟩
  · rintro rfl
    rfl
  · rintro (rfl | rfl) <;> rfl
  · rintro rfl
    rfl

/-- Witness for C3 at `d = 1/2`, `tpi = 28`, class A2, default
engagement length. -/
theorem calc_uts_extern_thread_spec_witness :
    (1 ≤ 28) ∧
    (calc_uts_extern_thread (1 / 2) 28 .A2 none).p = 1 / ((28 : ℕ) : ℝ) ∧
    (calc_uts_extern_thread (1 / 2) 28 .A2 none).le =
      9 * (calc_uts_extern_thread (1 / 2) 28 .A2 none).p :=
  ⟨by norm_num,
   (calc_uts_extern_thread_spec (1 / 2) 28 .A2 none (by norm_num)).1,
   (calc_uts_extern_thread_spec (1 / 2) 28 .A2 none (by norm_num)).2.1 rfl⟩

theorem base_tolerance_nonneg (d p le : ℝ) (hd : 0 ≤ d) :
    0 ≤ calc_uts_base_tolerance d p le := by
  unfold calc_uts_base_tolerance
  have h1 : 0 ≤ cbrt d := cbrt_nonneg hd
  have h2 : 0 ≤ Real.sqrt le := Real.sqrt_nonneg le
  have h3 : 0 ≤ cbrt (p ^ 2) := cbrt_nonneg (sq_nonneg p)
  have := mul_nonneg (by norm_num : (0:ℝ) ≤ 0.0015) h1
  have := mul_nonneg (by norm_num : (0:ℝ) ≤ 0.0015) h2
  have := mul_nonneg (by norm_num : (0:ℝ) ≤ 0.015) h3
  linarith

theorem extern_tolerances_nonneg (d p le : ℝ) (cls : ThreadClass)
    (hd : 0 ≤ d) :
    0 ≤ (calc_uts_extern_tolerances d p cls le).2.1 ∧
    0 ≤ (calc_uts_extern_tolerances d p cls le).2.2 := by
  have ht := base_tolerance_nonneg d p le hd
  have h3 : 0 ≤ cbrt (p ^ 2) := cbrt_nonneg (sq_nonneg p)
  have h6 := mul_nonneg (by norm_num : (0:ℝ) ≤ 0.06) h3
  cases cls <;>
    simp only [calc_uts_extern_tolerances] <;>
    constructor <;> first
      | assumption
      | exact mul_nonneg (by norm_num) ht

/-- C4: for every class, diameter `d ≥ 0`, `tpi ≥ 1`, and engagement
length, the result of `calc_uts_extern_thread` satisfies
`d_min ≤ d_max` and `d2_min ≤ d2_max`, since the subtracted tolerances
are non-negative. -/
theorem calc_uts_extern_thread_tolerance_order (d : ℝ) (tpi : ℕ)
    (cls : ThreadClass) (leo : Option ℕ) (hd : 0 ≤ d) (_htpi : 1 ≤ tpi) :
    (calc_uts_extern_thread d tpi cls leo).d_min ≤
      (calc_uts_extern_thread d tpi cls leo).d_max ∧
    (calc_uts_extern_thread d tpi cls leo).d2_min ≤
      (calc_uts_extern_thread d tpi cls leo).d2_max := by
  obtain ⟨h1, h2⟩ := extern_tolerances_nonneg d (1 / (tpi : ℝ))
    (((leo.getD 9 : ℕ) : ℝ) * (1 / (tpi : ℝ))) cls hd
  constructor
  · show (calc_uts_extern_thread d tpi cls leo).d_max - _ ≤ _
    exact sub_le_self _ h1
  · show (calc_uts_extern_thread d tpi cls leo).d2_max - _ ≤ _
    exact sub_le_self _ h2

/-- Witness for C4 at `d = 1/2`, `tpi = 28`, class A2, default
engagement length. -/
theorem calc_uts_extern_thread_tolerance_order_witness :
    ((0:ℝ) ≤ 1 / 2) ∧ (1 ≤ 28) ∧
    ((calc_uts_extern_thread (1 / 2) 28 .A2 none).d_min ≤
      (calc_uts_extern_thread (1 / 2) 28 .A2 none).d_max ∧
     (calc_uts_extern_thread (1 / 2) 28 .A2 none).d2_min ≤
      (calc_uts_extern_thread (1 / 2) 28 .A2 none).d2_max) :=
  ⟨by norm_num, by norm_num,
    calc_uts_extern_thread_tolerance_order (1 / 2) 28 .A2 none
      (by norm_num) (by norm_num)⟩

/-! ## `layout.rs`

The grid and linear-spacing generators use only field operations and
exact decimal literals, so they are embedded over `ℚ`.  The coordinate
type is parametrised so the bolt-circle generator can reuse it over
`ℝ`. -/

/-- The `Coord` value object from `types.rs`: x, y, optional z, optional
angle. -/
structure Coord (α : Type) where
  x : α
  y : α
  z : Option α
  angle : Option α
deriving DecidableEq

/-- Embedding of the `iter::from_fn` closure of `calc_alt_grid` in
`layout.rs`, with the mutable cursor `(cur_x, cur_y)` made explicit.
The `u32` subtraction `(x_cnt - 1) - cur_x` is modelled by truncated
`ℕ` subtraction; the two differ only when `x_cnt = 0` and an odd row is
reached (where the Rust build either panics on underflow or wraps), a
path no theorem below relies on. -/
def calc_alt_grid_go (x_start x_step y_start y_step : ℚ) (x_cnt y_cnt : ℕ)
    (cur_x cur_y : ℕ) : List (Coord ℚ) :=
  if h : y_cnt ≤ cur_y then
    []
  else
    ⟨if cur_y % 2 = 0 then x_start + (cur_x : ℚ) * x_step
       else ((x_cnt - 1 - cur_x : ℕ) : ℚ) * x_step,
     y_start + (cur_y : ℚ) * y_step, none, none⟩ ::
      (if h2 : x_cnt ≤ cur_x + 1 then
        calc_alt_grid_go x_start x_step y_start y_step x_cnt y_cnt 0 (cur_y + 1)
      else
        calc_alt_grid_go x_start x_step y_start y_step x_cnt y_cnt (cur_x + 1) cur_y)
termination_by (y_cnt - cur_y, x_cnt - cur_x)
decreasing_by
  · exact Prod.Lex.left _ _ (by omega)
  · exact Prod.Lex.right _ (by omega)

/-- Embedding of `calc_alt_grid` from `layout.rs` (serpentine grid). -/
def calc_alt_grid (x_start : ℚ) (x_cnt : ℕ) (x_step y_start : ℚ)
    (y_cnt : ℕ) (y_step : ℚ) : List (Coord ℚ) :=
  calc_alt_grid_go x_start x_step y_start y_step x_cnt y_cnt 0 0

/-- Closed form of the coordinate the serpentine grid emits at column
`c` of row `r`. -/
def gridCoord (x_start x_step y_start y_step : ℚ) (x_cnt : ℕ)
    (c r : ℕ) : Coord ℚ :=
  ⟨if r % 2 = 0 then x_start + (c : ℚ) * x_step
    else ((x_cnt - 1 - c : ℕ) : ℚ) * x_step,
   y_start + (r : ℚ) * y_step, none, none⟩

theorem calc_alt_grid_go_row (x_start x_step y_start y_step : ℚ)
    (x_cnt y_cnt : ℕ) :
    ∀ k c r, r < y_cnt → c + k + 1 = x_cnt →
      calc_alt_grid_go x_start x_step y_start y_step x_cnt y_cnt c r =
        (List.range (k + 1)).map
          (fun j => gridCoord x_start x_step y_start y_step x_cnt (c + j) r)
          ++ calc_alt_grid_go x_start x_step y_start y_step x_cnt y_cnt
              0 (r + 1) := by
  intro k
  induction k with
  | zero =>
    intro c r hr hc
    rw [calc_alt_grid_go]
    rw [dif_neg (by omega), dif_pos (by omega)]
    simp [gridCoord, show List.range 1 = [0] from rfl]
  | succ n ih =>
    intro c r hr hc
    rw [calc_alt_grid_go]
    rw [dif_neg (by omega), dif_neg (by omega)]
    rw [ih (c + 1) r hr (by omega)]
    conv_rhs => rw [List.range_succ_eq_map, List.map_cons, List.map_map,
      List.cons_append]
    refine congrArg₂ _ (by simp [gridCoord]) (congrArg₂ _ ?_ rfl)
    apply List.map_congr_left
    intro a _
    simp only [Function.comp_apply, Nat.succ_eq_add_one]
    have hca : c + 1 + a = c + (a + 1) := by omega
    rw [hca]

theorem calc_alt_grid_go_rows (x_start x_step y_start y_step : ℚ)
    (x_cnt y_cnt : ℕ) (hxc : 1 ≤ x_cnt) :
    ∀ m r, r + m = y_cnt →
      calc_alt_grid_go x_start x_step y_start y_step x_cnt y_cnt 0 r =
        (List.range m).flatMap
          (fun j => (List.range x_cnt).map
            (fun c => gridCoord x_start x_step y_start y_step x_cnt c (r + j))) := by
  intro m
  induction m with
  | zero =>
    intro r hr
    rw [calc_alt_grid_go, dif_pos (by omega)]
    simp
  | succ n ih =>
    intro r hr
    obtain ⟨k, hk⟩ : ∃ k, k + 1 = x_cnt := ⟨x_cnt - 1, by omega⟩
    rw [calc_alt_grid_go_row x_start x_step y_start y_step x_cnt y_cnt k 0 r
      (by omega) (by omega)]
    conv_rhs => rw [List.range_succ_eq_map, List.flatMap_cons,
      List.flatMap_map]
    refine congrArg₂ _ ?_ ?_
    · rw [hk]
      apply List.map_congr_left
      intro a _
      simp
    · rw [ih (r + 1) (by omega)]
      refine congrArg₂ _ rfl ?_
      funext j
      simp only [Function.comp_apply, Nat.succ_eq_add_one]
      have hrj : r + 1 + j = r + (j + 1) := by omega
      rw [hrj]

theorem calc_alt_grid_eq_flatMap (x_start x_step y_start y_step : ℚ)
    (x_cnt y_cnt : ℕ) (hxc : 1 ≤ x_cnt) :
    calc_alt_grid x_start x_cnt x_step y_start y_cnt y_step =
      (List.range y_cnt).flatMap
        (fun r => (List.range x_cnt).map
          (fun c => gridCoord x_start x_step y_start y_step x_cnt c r)) := by
  rw [calc_alt_grid,
    calc_alt_grid_go_rows x_start x_step y_start y_step x_cnt y_cnt hxc
      y_cnt 0 (by omega)]
  refine congrArg₂ _ rfl ?_
  funext j
  simp only [Nat.zero_add]

theorem calc_alt_grid_length (x_start x_step y_start y_step : ℚ)
    (x_cnt y_cnt : ℕ) (hxc : 1 ≤ x_cnt) :
    (calc_alt_grid x_start x_cnt x_step y_start y_cnt y_step).length =
      x_cnt * y_cnt := by
  rw [calc_alt_grid_eq_flatMap x_start x_step y_start y_step x_cnt y_cnt hxc]
  rw [List.length_flatMap]
  simp only [Function.comp_def, List.length_map, List.length_range]
  simp [List.map_const', List.sum_replicate, smul_eq_mul, Nat.mul_comm]

/-- C6: the spec promises an empty sequence when either axis count is 0,
and the code honours it for `y_cnt = 0`, but for `x_cnt = 0` (with
`y_cnt = 1`) `calc_alt_grid` emits one coordinate `(x_start, y_start)`
because the column bound is only checked after a point is produced: the
x-axis half of the claim fails on the code. -/
theorem calc_alt_grid_count_zero_bug :
    (∀ x_start x_step y_start y_step : ℚ, ∀ x_cnt : ℕ,
      calc_alt_grid x_start x_cnt x_step y_start 0 y_step = []) ∧
    calc_alt_grid 0 0 1 0 1 1 = [⟨0, 0, none, none⟩] ∧
    (calc_alt_grid 0 0 1 0 1 1).length ≠ 0 := by
  have hone : calc_alt_grid 0 0 1 0 1 1 = [⟨0, 0, none, none⟩] := by
    rw [calc_alt_grid, calc_alt_grid_go, dif_neg (by omega),
      dif_pos (by omega), calc_alt_grid_go, dif_pos (by omega)]
    norm_num
  refine ⟨fun x_start x_step y_start y_step x_cnt => ?_, hone, ?_⟩
  · rw [calc_alt_grid, calc_alt_grid_go, dif_pos (by omega)]
  · rw [hone]
    simp

/-- C7 counterexample: with `x_cnt = 0` and `y_cnt = 1` the serpentine
grid emits 1 coordinate, not `x_cnt * y_cnt = 0`. -/
theorem calc_alt_grid_total_count_cex :
    (calc_alt_grid 1 0 1 0 1 1).length = 1 ∧ (1 : ℕ) ≠ 0 * 1 := by
  constructor
  · rw [calc_alt_grid, calc_alt_grid_go, dif_neg (by omega),
      dif_pos (by omega), calc_alt_grid_go, dif_pos (by omega)]
    rfl
  · omega

/-- C7 (amended to `x_cnt ≥ 1`): the serpentine grid emits exactly
`x_cnt * y_cnt` coordinates, row `r` (top to bottom) consisting of
`x_start + c * x_step` for even `r` and `(x_cnt - 1 - c) * x_step`
(measured from the axis origin) for odd `r`; the 6-by-4 example yields
24 points with point 0 = `(0,0)`, point 5 = `(5,0)`, point 6 = `(5,1)`
and point 23 = `(0,3)`. -/
theorem calc_alt_grid_serpentine_spec :
    (∀ x_start x_step y_start y_step : ℚ, ∀ x_cnt y_cnt : ℕ, 1 ≤ x_cnt →
      calc_alt_grid x_start x_cnt x_step y_start y_cnt y_step =
        (List.range y_cnt).flatMap
          (fun r => (List.range x_cnt).map
            (fun c => gridCoord x_start x_step y_start y_step x_cnt c r)) ∧
      (calc_alt_grid x_start x_cnt x_step y_start y_cnt y_step).length =
        x_cnt * y_cnt) ∧
    (calc_alt_grid 0 6 1 0 4 1).length = 24 ∧
    (calc_alt_grid 0 6 1 0 4 1)[0]? = some ⟨0, 0, none, none⟩ ∧
    (calc_alt_grid 0 6 1 0 4 1)[5]? = some ⟨5, 0, none, none⟩ ∧
    (calc_alt_grid 0 6 1 0 4 1)[6]? = some ⟨5, 1, none, none⟩ ∧
    (calc_alt_grid 0 6 1 0 4 1)[23]? = some ⟨0, 3, none, none⟩ := by
  have hgrid := calc_alt_grid_eq_flatMap 0 1 0 1 6 4 (by norm_num)
  refine ⟨fun x_start x_step y_start y_step x_cnt y_cnt hxc =>
    ⟨calc_alt_grid_eq_flatMap x_start x_step y_start y_step x_cnt y_cnt hxc,
     calc_alt_grid_length x_start x_step y_start y_step x_cnt y_cnt hxc⟩,
    ?_, ?_, ?_, ?_, ?_⟩ <;>
  · rw [hgrid]
    norm_num [List.range_succ, gridCoord]

/-- Witness for the general part of the C7 theorem at the 6-by-4
example. -/
theorem calc_alt_grid_serpentine_spec_witness :
    (1 ≤ 6) ∧ (calc_alt_grid 0 6 1 0 4 1).length = 6 * 4 :=
  ⟨by norm_num,
   (calc_alt_grid_serpentine_spec.1 0 1 0 1 6 4 (by norm_num)).2⟩

/-- Two's-complement value of the `(0..)` counter of
`calc_linear_spacing` after `k` iterator steps.  The Rust counter is
`i32` (integer-literal fallback, pinned by `i as f64`), so past
`2^31 - 1` it wraps to `-2^31` under release semantics; debug builds
panic at that point instead.  Every theorem below either stays in the
region `k < 2^31` where the two builds and this model agree, or asserts
only that no finite clean prefix is produced, which holds either way. -/
def i32ofIdx (k : ℕ) : ℤ := ((k : ℤ) + 2 ^ 31) % 2 ^ 32 - 2 ^ 31

/-- Element `k` of the iterator of `calc_linear_spacing` in
`layout.rs`: `step * (i as f64) + start` with the wrapped `i32`
counter. -/
def linSeq (start step : ℚ) (k : ℕ) : ℚ :=
  step * ((i32ofIdx k : ℤ) : ℚ) + start

open Classical in
/-- Embedding of `calc_linear_spacing` from `layout.rs`: `take_while`
keeps the prefix strictly before the first element exceeding `stop`.
When no element ever exceeds `stop`, collecting the Rust iterator never
terminates (release) or panics at the counter overflow (debug); the
model returns `none` for that divergence. -/
noncomputable def calc_linear_spacing (start stop step : ℚ) :
    Option (List ℚ) :=
  if h : ∃ n, stop < linSeq start step n then
    some ((List.range (Nat.find h)).map (linSeq start step))
  else
    none

theorem i32ofIdx_lt (k : ℕ) : i32ofIdx k < 2 ^ 31 := by
  unfold i32ofIdx
  have h1 : ((k : ℤ) + 2 ^ 31) % 2 ^ 32 < 2 ^ 32 :=
    Int.emod_lt_of_pos _ (by norm_num)
  omega

theorem i32ofIdx_eq (k : ℕ) (hk : k < 2 ^ 31) : i32ofIdx k = k := by
  unfold i32ofIdx
  rw [Int.emod_eq_of_lt (by positivity) (by push_cast; omega)]
  ring

theorem calc_linear_spacing_characterisation (start stop step : ℚ)
    (_hstep : 0 < step)
    (hb : ∃ b : ℕ, b < 2 ^ 31 ∧ stop < step * (b : ℚ) + start) :
    ∃ n : ℕ, calc_linear_spacing start stop step =
        some ((List.range n).map (fun i : ℕ => step * (i : ℚ) + start)) ∧
      (∀ i < n, step * ((i : ℕ) : ℚ) + start ≤ stop) ∧
      stop < step * ((n : ℕ) : ℚ) + start := by
  obtain ⟨b, hb31, hbgt⟩ := hb
  have hpb : stop < linSeq start step b := by
    simp only [linSeq]
    rw [i32ofIdx_eq b hb31]
    push_cast
    exact hbgt
  have hex : ∃ n, stop < linSeq start step n := ⟨b, hpb⟩
  have hfind_le : Nat.find hex ≤ b := Nat.find_min' hex hpb
  have hfb : Nat.find hex < 2 ^ 31 := Nat.lt_of_le_of_lt hfind_le hb31
  refine ⟨Nat.find hex, ?_, ?_, ?_⟩
  · rw [calc_linear_spacing, dif_pos hex]
    refine congrArg _ (List.map_congr_left ?_)
    intro a ha
    rw [List.mem_range] at ha
    simp only [linSeq]
    rw [i32ofIdx_eq a (by omega)]
    push_cast
    ring
  · intro i hi
    have hmin := Nat.find_min hex hi
    simp only [linSeq] at hmin
    rw [i32ofIdx_eq i (by omega)] at hmin
    push_cast at hmin
    exact not_lt.1 hmin
  · have hspec := Nat.find_spec hex
    simp only [linSeq] at hspec
    rw [i32ofIdx_eq (Nat.find hex) hfb] at hspec
    push_cast at hspec
    exact hspec

/-- C8 counterexample: at `start = 0`, `stop = 2.2e9`, `step = 1`
(`step > 0`, and all three are exactly representable in `f64`, so this
is no rounding corner), the value of the wrapped `i32` counter never
exceeds `2^31 - 1 < 2.2e9`, hence no element of the iterator ever
exceeds `stop`: `take_while` never stops, collecting the iterator
diverges (release) or panics (debug), and no finite list of the claimed
shape is produced. -/
theorem calc_linear_spacing_overflow_cex :
    (0 : ℚ) < 1 ∧ calc_linear_spacing 0 2200000000 1 = none := by
  have hnone : ¬ ∃ n, (2200000000 : ℚ) < linSeq 0 1 n := by
    rintro ⟨n, hn⟩
    have h := i32ofIdx_lt n
    have h2 : ((i32ofIdx n : ℤ) : ℚ) < 2 ^ 31 := by exact_mod_cast h
    simp only [linSeq] at hn
    norm_num at hn h2
    linarith
  exact ⟨by norm_num, by rw [calc_linear_spacing, dif_neg hnone]⟩

/-- C8 (amended): for `step > 0` and a range whose first index `i` with
`step * i + start > stop` occurs before the `i32` loop counter of the
source overflows (some bound `b < 2^31` already exceeds `stop`),
`calc_linear_spacing` terminates and yields exactly
`start, start + step, start + 2 * step, ...`, keeping every value up to
and including one landing exactly on `stop` and stopping at the first
value exceeding `stop`; in particular `calc_linear_spacing 0.5 11.5
2.75` is `[0.5, 3.25, 6.0, 8.75, 11.5]`. -/
theorem calc_linear_spacing_spec :
    (∀ start stop step : ℚ, 0 < step →
      (∃ b : ℕ, b < 2 ^ 31 ∧ stop < step * (b : ℚ) + start) →
      ∃ n : ℕ, calc_linear_spacing start stop step =
          some ((List.range n).map (fun i : ℕ => step * (i : ℚ) + start)) ∧
        (∀ i < n, step * ((i : ℕ) : ℚ) + start ≤ stop) ∧
        stop < step * ((n : ℕ) : ℚ) + start) ∧
    calc_linear_spacing (1 / 2) (23 / 2) (11 / 4) =
      some [1 / 2, 13 / 4, 6, 35 / 4, 23 / 2] := by
  refine ⟨calc_linear_spacing_characterisation, ?_⟩
  obtain ⟨n, hm, hall, hstop⟩ :=
    calc_linear_spacing_characterisation (1 / 2) (23 / 2) (11 / 4)
      (by norm_num) ⟨5, by norm_num, by norm_num⟩
  have hn : n = 5 := by
    by_contra hne
    rcases Nat.lt_or_ge n 5 with hlt | hge
    · have hc : (n : ℚ) ≤ 4 := by
        exact_mod_cast Nat.le_of_lt_succ hlt
      have : (11 / 4 : ℚ) * (n : ℚ) + 1 / 2 ≤ 23 / 2 := by linarith
      linarith
    · have h5 : 5 < n := by omega
      have := hall 5 h5
      norm_num at this
  subst hn
  rw [hm]
  norm_num [List.range_succ]

/-- Witness for the general part of the C8 theorem at the
`(0.5, 11.5, 2.75)` example, whose stopping index 5 is far below the
`i32` overflow bound. -/
theorem calc_linear_spacing_spec_witness :
    (0 : ℚ) < 11 / 4 ∧
    (∃ b : ℕ, b < 2 ^ 31 ∧ (23 / 2 : ℚ) < 11 / 4 * (b : ℚ) + 1 / 2) ∧
    ∃ n : ℕ, calc_linear_spacing (1 / 2) (23 / 2) (11 / 4) =
        some ((List.range n).map
          (fun i : ℕ => (11 / 4 : ℚ) * (i : ℚ) + 1 / 2)) ∧
      (∀ i < n, (11 / 4 : ℚ) * ((i : ℕ) : ℚ) + 1 / 2 ≤ 23 / 2) ∧
      (23 / 2 : ℚ) < 11 / 4 * ((n : ℕ) : ℚ) + 1 / 2 :=
  ⟨by norm_num, ⟨5, by norm_num, by norm_num⟩,
   calc_linear_spacing_spec.1 (1 / 2) (23 / 2) (11 / 4) (by norm_num)
     ⟨5, by norm_num, by norm_num⟩⟩

/-- Model of `f64::to_radians`: `x * (PI / 180)`. -/
noncomputable def toRadians (x : ℝ) : ℝ := x * (Real.pi / 180)

/-- Model of `f64::to_degrees`: `x * (180 / PI)`. -/
noncomputable def toDegrees (x : ℝ) : ℝ := x * (180 / Real.pi)

theorem toDegrees_toRadians (x : ℝ) : toDegrees (toRadians x) = x := by
  unfold toDegrees toRadians
  have hpi := Real.pi_ne_zero
  field_simp

/-- Embedding of `calc_bolt_circle` from `layout.rs`. -/
noncomputable def calc_bolt_circle (dia : ℝ) (num : ℕ)
    (st_angle xc yc : Option ℝ) : List (Coord ℝ) :=
  let st_angle := st_angle.getD 0
  let xc := xc.getD 0
  let yc := yc.getD 0
  let step := 360 / (num : ℝ)
  let rd := dia / 2
  (List.range num).map (fun i : ℕ =>
    let ang := toRadians (st_angle + (i : ℝ) * step)
    { x := xc + rd * Real.cos ang
      y := yc + rd * Real.sin ang
      z := none
      angle := some (toDegrees ang) })

theorem bolt_point_radius (rd θ : ℝ) (hrd : 0 ≤ rd) :
    Real.sqrt ((rd * Real.cos θ) ^ 2 + (rd * Real.sin θ) ^ 2) = rd := by
  have hcs : (rd * Real.cos θ) ^ 2 + (rd * Real.sin θ) ^ 2 = rd ^ 2 := by
    have h1 := Real.cos_sq_add_sin_sq θ
    nlinarith [h1]
  rw [hcs, Real.sqrt_sq hrd]

/-- C9: `calc_bolt_circle` emits exactly `num` coordinates, the `i`-th
with angle field `st_angle + i * (360 / num)` (no normalisation to
`[0, 360)`) and at distance `dia / 2` from the centre; for
`dia = 6`, `num = 5`, start angle `20`, centre at the origin, the five
angles are `20, 92, 164, 236, 308`. -/
theorem calc_bolt_circle_spec :
    (∀ dia : ℝ, ∀ num : ℕ, ∀ st xc yc : Option ℝ, 0 ≤ dia →
      (calc_bolt_circle dia num st xc yc).length = num ∧
      ∀ i, i < num → ∃ c, (calc_bolt_circle dia num st xc yc)[i]? = some c ∧
        c.angle = some (st.getD 0 + (i : ℝ) * (360 / (num : ℝ))) ∧
        Real.sqrt ((c.x - xc.getD 0) ^ 2 + (c.y - yc.getD 0) ^ 2) = dia / 2) ∧
    (calc_bolt_circle 6 5 (some 20) none none).map Coord.angle =
      [some 20, some 92, some 164, some 236, some 308] := by
  constructor
  · intro dia num st xc yc hd
    constructor
    · simp only [calc_bolt_circle, List.length_map, List.length_range]
    · intro i hi
      refine ⟨⟨xc.getD 0 + dia / 2 *
          Real.cos (toRadians (st.getD 0 + (i : ℝ) * (360 / (num : ℝ)))),
        yc.getD 0 + dia / 2 *
          Real.sin (toRadians (st.getD 0 + (i : ℝ) * (360 / (num : ℝ)))),
        none,
        some (toDegrees
          (toRadians (st.getD 0 + (i : ℝ) * (360 / (num : ℝ)))))⟩,
        ?_, ?_, ?_⟩
      · simp [calc_bolt_circle, List.getElem?_map, List.getElem?_range, hi]
      · simp [toDegrees_toRadians]
      · simp only [add_sub_cancel_left]
        exact bolt_point_radius (dia / 2) _ (by linarith)
  · simp [calc_bolt_circle, toDegrees_toRadians, List.range_succ]
    norm_num

/-- Witness for the general part of the C9 theorem at the five-hole,
6-inch example. -/
theorem calc_bolt_circle_spec_witness :
    ((0 : ℝ) ≤ 6) ∧ (calc_bolt_circle 6 5 (some 20) none none).length = 5 :=
  ⟨by norm_num, (calc_bolt_circle_spec.1 6 5 (some 20) none none
    (by norm_num)).1⟩

/-! ## `math.rs` and `util.rs` -/

/-- Model of `f64::round`: round half away from zero, as an integer. -/
def roundHalfAway (x : ℚ) : ℤ :=
  if 0 ≤ x then ⌊x + 1 / 2⌋ else -⌊-x + 1 / 2⌋

/-- Embedding of `round` from `math.rs`:
`(value * 10^precision).round() / 10^precision`. -/
def round (value : ℚ) (precision : ℕ) : ℚ :=
  let factor : ℚ := 10 ^ precision
  ((roundHalfAway (value * factor) : ℤ) : ℚ) / factor

/-- Embedding of `truncate_float` from `util.rs` (textually the same
operation as `round` in `math.rs`). -/
def truncate_float (f : ℚ) (n : ℕ) : ℚ :=
  let factor : ℚ := 10 ^ n
  ((roundHalfAway (f * factor) : ℤ) : ℚ) / factor

theorem roundHalfAway_intCast (k : ℤ) : roundHalfAway (k : ℚ) = k := by
  unfold roundHalfAway
  by_cases h : (0 : ℚ) ≤ (k : ℚ)
  · rw [if_pos h, Int.floor_int_add]
    norm_num
  · rw [if_neg h, show (-(k : ℚ)) = ((-k : ℤ) : ℚ) by push_cast; ring,
      Int.floor_int_add]
    norm_num

/-- C10: the rounding utility is idempotent: rounding an already rounded
value to the same number of digits leaves it unchanged, both for `round`
in `math.rs` and for its twin `truncate_float` in `util.rs`. -/
theorem round_to_idempotent :
    (∀ (x : ℚ) (n : ℕ), round (round x n) n = round x n) ∧
    (∀ (x : ℚ) (n : ℕ),
      truncate_float (truncate_float x n) n = truncate_float x n) := by
  have hf : ∀ n : ℕ, ((10 : ℚ) ^ n) ≠ 0 := fun n => by positivity
  constructor
  · intro x n
    simp only [round]
    rw [div_mul_cancel₀ _ (hf n), roundHalfAway_intCast]
  · intro x n
    simp only [truncate_float]
    rw [div_mul_cancel₀ _ (hf n), roundHalfAway_intCast]

/-! ## Non-finite `f64` model

IEEE-754 `f64` division by zero does not fault in Rust: `1.0 / 0.0`
evaluates to `+Infinity` and the computation continues.  The exact-real
embedding above cannot express this, so the division-by-zero behaviour
of `calc_uts_extern_thread` is settled against this small model with
signed infinities and NaN (finite payloads are exact reals; signed
zeros and rounding are not modelled, which no theorem below needs). -/

/-- An `f64` value: finite (exact payload), one of the two infinities,
or NaN. -/
inductive F64 where
  | fin : ℝ → F64
  | pinf
  | ninf
  | nan

namespace F64

noncomputable def add : F64 → F64 → F64
  | fin a, fin b => fin (a + b)
  | fin _, pinf => pinf
  | fin _, ninf => ninf
  | pinf, fin _ => pinf
  | pinf, pinf => pinf
  | pinf, ninf => nan
  | ninf, fin _ => ninf
  | ninf, pinf => nan
  | ninf, ninf => ninf
  | nan, _ => nan
  | _, nan => nan

noncomputable def neg : F64 → F64
  | fin a => fin (-a)
  | pinf => ninf
  | ninf => pinf
  | nan => nan

noncomputable def sub (a b : F64) : F64 := add a (neg b)

open Classical in
noncomputable def mul : F64 → F64 → F64
  | fin a, fin b => fin (a * b)
  | fin a, pinf => if 0 < a then pinf else if a < 0 then ninf else nan
  | fin a, ninf => if 0 < a then ninf else if a < 0 then pinf else nan
  | pinf, fin b => if 0 < b then pinf else if b < 0 then ninf else nan
  | ninf, fin b => if 0 < b then ninf else if b < 0 then pinf else nan
  | pinf, pinf => pinf
  | pinf, ninf => ninf
  | ninf, pinf => ninf
  | ninf, ninf => pinf
  | nan, _ => nan
  | _, nan => nan

open Classical in
noncomputable def div : F64 → F64 → F64
  | fin a, fin b =>
    if b = 0 then (if 0 < a then pinf else if a < 0 then ninf else nan)
    else fin (a / b)
  | fin _, pinf => fin 0
  | fin _, ninf => fin 0
  | pinf, fin b => if 0 ≤ b then pinf else ninf
  | ninf, fin b => if 0 ≤ b then ninf else pinf
  | pinf, pinf => nan
  | pinf, ninf => nan
  | ninf, pinf => nan
  | ninf, ninf => nan
  | nan, _ => nan
  | _, nan => nan

open Classical in
noncomputable def sqrtF : F64 → F64
  | fin a => if a < 0 then nan else fin (Real.sqrt a)
  | pinf => pinf
  | ninf => nan
  | nan => nan

noncomputable def cbrtF : F64 → F64
  | fin a => fin (cbrt a)
  | pinf => pinf
  | ninf => ninf
  | nan => nan

/-- `p.powi(2)`, i.e. `p * p`. -/
noncomputable def powi2 (x : F64) : F64 := mul x x

end F64

/-- `calc_uts_allowance` over the non-finite `f64` model. -/
noncomputable def allowanceF (d p : F64) (cls : ThreadClass)
    (le : Option F64) : F64 :=
  let le := le.getD (F64.mul (.fin 5) p)
  let k1 : F64 := .fin 0.0015
  let k2 : F64 := .fin 0.015
  match cls with
  | .A3 => .fin 0
  | .A1 | .A2 =>
    F64.mul (.fin 0.3)
      (F64.add (F64.add (F64.mul k1 (F64.cbrtF d))
        (F64.mul k1 (F64.sqrtF le))) (F64.mul k2 (F64.cbrtF (F64.powi2 p))))

/-- `calc_uts_base_tolerance` over the non-finite `f64` model. -/
noncomputable def base_toleranceF (d p le : F64) : F64 :=
  let k1 : F64 := .fin 0.0015
  let k2 : F64 := .fin 0.015
  F64.add (F64.add (F64.mul k1 (F64.cbrtF d)) (F64.mul k1 (F64.sqrtF le)))
    (F64.mul k2 (F64.cbrtF (F64.powi2 p)))

/-- `calc_uts_extern_tolerances` over the non-finite `f64` model. -/
noncomputable def extern_tolerancesF (d p : F64) (cls : ThreadClass)
    (le : F64) : F64 × F64 × F64 :=
  let t := base_toleranceF d p le
  let td := match cls with
    | .A1 => F64.mul (.fin 0.3) t
    | .A2 | .A3 => F64.mul (.fin 0.06) (F64.cbrtF (F64.powi2 p))
  let td2 := match cls with
    | .A1 => F64.mul (.fin 1.5) t
    | .A2 => t
    | .A3 => F64.mul (.fin 0.75) t
  (t, td, td2)

/-- `calc_uts_extern_thread` over the non-finite `f64` model:
`1.0 / (tpi as f64)` is IEEE division, so `tpi = 0` yields `+Infinity`
and every downstream formula keeps computing on non-finite values. -/
noncomputable def extern_threadF (d : F64) (tpi : ℕ) (cls : ThreadClass)
    (le : Option ℕ) : UnifiedThreadCalc F64 :=
  let p := F64.div (.fin 1) (.fin (tpi : ℝ))
  let le := F64.mul (.fin ((le.getD 9 : ℕ) : ℝ)) p
  let es := allowanceF d p cls (some le)
  let d_max := F64.sub d es
  let tt := extern_tolerancesF d p cls le
  let t := tt.1
  let td := tt.2.1
  let td2 := tt.2.2
  let d_min := F64.sub d_max td
  let h := F64.mul (.fin 0.866025404) p
  let d2 := F64.sub d (F64.mul (.fin 2) (F64.mul (.fin (3 / 8)) h))
  let d2_max := F64.sub d2 es
  let d2_min := F64.sub d2_max td2
  let d_bsc_min := F64.sub d (F64.mul (.fin 2) (F64.mul (.fin (5 / 8)) h))
  let d1 := match cls with
    | .A1 | .A2 => F64.sub d_bsc_min es
    | .A3 => d_bsc_min
  { p := p
    le := le
    es := es
    d_min := d_min
    d_max := d_max
    t := t
    td := td
    td2 := td2
    d2 := d2
    d2_min := d2_min
    d2_max := d2_max
    h := h
    d1 := d1
    d_unr_max := F64.mul (.fin 1.19078493) p
    d_un_max := F64.mul (.fin 1.08253175) p
    h_as := F64.mul (.fin 0.64951905) p }

/-- C5 counterexample: at `d = 1/2`, `tpi = 0`, class A2, default
engagement length, the record is returned with `p = +Infinity` and
`d_max = -Infinity` — division by zero does not fault, it silently
stores non-finite values in the result record. -/
theorem extern_threadF_div_zero_cex :
    (extern_threadF (.fin (1 / 2)) 0 .A2 none).p = F64.pinf ∧
    (extern_threadF (.fin (1 / 2)) 0 .A2 none).d_max = F64.ninf := by
  constructor <;>
  · simp only [extern_threadF, allowanceF, F64.div, F64.mul, F64.add,
      F64.sub, F64.neg, F64.sqrtF, F64.cbrtF, F64.powi2, Option.getD,
      Nat.cast_zero, Nat.cast_ofNat]
    norm_num

/-- C5 (amended): for every finite diameter, every class, and every
engagement-length option, calling `calc_uts_extern_thread` with
`threads_per_inch = 0` silently returns a record whose pitch field is
`+Infinity` (IEEE division by zero), instead of raising an arithmetic
fault. -/
theorem extern_threadF_div_zero (d : ℝ) (cls : ThreadClass)
    (le : Option ℕ) :
    (extern_threadF (.fin d) 0 cls le).p = F64.pinf := by
  simp only [extern_threadF, F64.div, Nat.cast_zero]
  norm_num

end Smithy
